import Mathlib

/-!
Verification of the RLG grounded question-answering engine.

Shallow embedding of the Python backend (`app/services/*.py`) into Lean:
strings are `String`/`List Char`, Python floats are modelled as `ℚ`,
dictionaries as association lists with insertion order, and the external
embedding model as an explicit similarity-function parameter.
-/

namespace RLG

/-- Python `\s` whitespace class (ASCII part). -/
def isSpace (c : Char) : Bool :=
  c = ' ' || c = '\t' || c = '\n' || c = '\r' || c = '\x0b' || c = '\x0c'

/-- Python `\w` word-character class (ASCII part). -/
def isWordChar (c : Char) : Bool :=
  ('a' ≤ c && c ≤ 'z') || ('A' ≤ c && c ≤ 'Z') || ('0' ≤ c && c ≤ '9') || c = '_'

/-- Regex class `[A-Z]`. -/
def isUpperAZ (c : Char) : Bool := 'A' ≤ c && c ≤ 'Z'

/-- Regex class `[a-z]`. -/
def isLowerAZ (c : Char) : Bool := 'a' ≤ c && c ≤ 'z'

/-- Regex class `\d`. -/
def isDigit09 (c : Char) : Bool := '0' ≤ c && c ≤ '9'

/-- Python `str.lower()` (ASCII). -/
def pyLower (s : String) : String := String.mk (s.toList.map Char.toLower)

/-- Python `str.upper()` (ASCII). -/
def pyUpper (s : String) : String := String.mk (s.toList.map Char.toUpper)

/-- Python `str.strip()` on a character list. -/
def stripList (l : List Char) : List Char :=
  ((l.dropWhile isSpace).reverse.dropWhile isSpace).reverse

/-- Python `str.strip()`. -/
def pyStrip (s : String) : String := String.mk (stripList s.toList)

/-- Python substring test `needle in hay` on character lists. -/
def subList : List Char → List Char → Bool
  | _, [] => true
  | [], _ :: _ => false
  | c :: hay, nee => nee.isPrefixOf (c :: hay) || subList hay nee

/-- Python substring test `needle in hay` on strings. -/
def containsSub (hay nee : String) : Bool := subList hay.toList nee.toList

/-- Numeric value of a decimal digit string (Python `int(...)` on `\d+`). -/
def natOfDigits (l : List Char) : Nat :=
  l.foldl (fun a c => a * 10 + (c.toNat - '0'.toNat)) 0

/-- `re.findall(r'\b\w+\b', s)`: maximal runs of word characters.
`acc` holds the current run reversed. -/
def wordRunsAux : List Char → List Char → List String
  | acc, [] => if acc.isEmpty then [] else [String.mk acc.reverse]
  | acc, c :: t =>
    if isWordChar c then wordRunsAux (c :: acc) t
    else if acc.isEmpty then wordRunsAux [] t
    else String.mk acc.reverse :: wordRunsAux [] t

/-- All `\w+` words of a string, in order. -/
def wordsOf (s : String) : List String := wordRunsAux [] s.toList

/-- Python `set(re.findall(r'\b\w+\b', s))`: deduplicated word list. -/
def wordSet (s : String) : List String := (wordsOf s).dedup

/-- `re.sub(r'\[\d+\]', '', s)` on a character list: delete every
`[digits]` citation marker, scanning left to right.  Each scanning step
consumes at least one character, so the input length is a sufficient step
budget. -/
def stripMarkersAux : Nat → List Char → List Char
  | 0, _ => []
  | _ + 1, [] => []
  | fuel + 1, '[' :: t =>
    let ds := t.takeWhile isDigit09
    if ds ≠ [] ∧ (t.drop ds.length).head? = some ']' then
      stripMarkersAux fuel (t.drop (ds.length + 1))
    else
      '[' :: stripMarkersAux fuel t
  | fuel + 1, c :: t => c :: stripMarkersAux fuel t

/-- `re.sub(r'\[\d+\]', '', s)` on strings. -/
def stripMarkers (s : String) : String := String.mk (stripMarkersAux s.length s.toList)

/-- `re.findall(r'\[(\d+)\]', s)` scan: the digit groups of the citation
markers, parsed as numbers, scanning left to right. -/
def findCitationsAux : Nat → List Char → List Nat
  | 0, _ => []
  | _ + 1, [] => []
  | fuel + 1, '[' :: t =>
    let ds := t.takeWhile isDigit09
    if ds ≠ [] ∧ (t.drop ds.length).head? = some ']' then
      natOfDigits ds :: findCitationsAux fuel (t.drop (ds.length + 1))
    else
      findCitationsAux fuel t
  | fuel + 1, _ :: t => findCitationsAux fuel t

/-- Citation markers `[k]` appearing in a string, in order. -/
def findCitations (s : String) : List Nat := findCitationsAux s.length s.toList

/-- Lookbehind `(?<=\.|\?|\!)`: the previous character (head of the
reversed prefix) is sentence-terminating punctuation. -/
def sentencePunct (prev : List Char) : Bool :=
  match prev with
  | p0 :: _ => p0 = '.' || p0 = '?' || p0 = '!'
  | [] => false

/-- Lookbehind `(?<!\w\.\w.)` matched against the reversed prefix:
true when the four preceding characters are word, dot, word, any-but-newline
(in forward order). -/
def abbrevPat1 (prev : List Char) : Bool :=
  match prev with
  | p0 :: p1 :: p2 :: p3 :: _ => isWordChar p3 && p2 = '.' && isWordChar p1 && p0 ≠ '\n'
  | _ => false

/-- Lookbehind `(?<![A-Z][a-z]\.)` matched against the reversed prefix:
true when the three preceding characters are upper, lower, dot
(in forward order). -/
def abbrevPat2 (prev : List Char) : Bool :=
  match prev with
  | p0 :: p1 :: p2 :: _ => isUpperAZ p2 && isLowerAZ p1 && p0 = '.'
  | _ => false

/-- `re.sub(r'(?<!\w\.\w.)(?<![A-Z][a-z]\.)(?<=\.|\?|\!)\s', '\n', text)`:
replace each whitespace character after sentence punctuation (unless an
abbreviation lookbehind fires) by a newline.  `prev` is the reversed
prefix of the original text. -/
def sentenceBreaksAux : List Char → List Char → List Char
  | _, [] => []
  | prev, c :: t =>
    let c' := if isSpace c && sentencePunct prev && !abbrevPat1 prev && !abbrevPat2 prev
              then '\n' else c
    c' :: sentenceBreaksAux (c :: prev) t

/-- Split a character list at newline characters. -/
def splitNL : List Char → List (List Char)
  | [] => [[]]
  | '\n' :: t => [] :: splitNL t
  | c :: t =>
    match splitNL t with
    | [] => [[c]]
    | p :: ps => (c :: p) :: ps

/-- `ValidationService._split_sentences`: insert sentence breaks, split on
newlines, strip each piece, drop empties. -/
def split_sentences (text : String) : List String :=
  ((splitNL (sentenceBreaksAux [] text.toList)).map (fun l => String.mk (stripList l))).filter
    (fun s => s ≠ "")

/-! ## Configuration (`app/core/config.py`) -/

namespace settings

/-- `Settings.BM25_WEIGHT = 0.3`. -/
def BM25_WEIGHT : ℚ := 3/10

/-- `Settings.DENSE_WEIGHT = 0.5`. -/
def DENSE_WEIGHT : ℚ := 1/2

/-- `Settings.STRUCTURAL_WEIGHT = 0.2`. -/
def STRUCTURAL_WEIGHT : ℚ := 1/5

/-- `Settings.MIN_GROUNDING_CONFIDENCE = 0.7`. -/
def MIN_GROUNDING_CONFIDENCE : ℚ := 7/10

/-- `Settings.CHUNK_SIZE = 512`. -/
def CHUNK_SIZE : Nat := 512

/-- `Settings.TOP_K_RETRIEVAL = 20`. -/
def TOP_K_RETRIEVAL : Nat := 20

end settings

/-! ## Validation service (`app/services/validation_service.py`) -/

/-- `ContextChunk` from `context_service.py`. -/
structure ContextChunk where
  marker : String
  content : String
  citation : String
  chunk_id : String
deriving DecidableEq, Repr

/-- `GroundingResult` dataclass. -/
structure GroundingResult where
  sentence : String
  is_grounded : Bool
  confidence : ℚ
  matched_chunks : List String
  matched_excerpts : List String
  match_type : String
deriving DecidableEq, Repr

/-- `ValidationResult` dataclass. -/
structure ValidationResult where
  is_valid : Bool
  grounding_score : ℚ
  sentence_results : List GroundingResult
  warnings : List String
  errors : List String
deriving DecidableEq, Repr

/-- `ValidationService._semantic_similarity`: the external embedding model
is the parameter `sim` (raw dot product of the two embeddings); the code
clamps it into `[0, 1]`. -/
def semantic_similarity (sim : String → String → ℚ) (a b : String) : ℚ :=
  max 0 (min 1 (sim a b))

/-- Python truthiness wrapper used for `[x] if x else []` on strings. -/
def listIfTruthy (s : String) : List String := if s = "" then [] else [s]

/-- `ValidationService._fuzzy_match_score`: stopword-filtered word-overlap
of the sentence against the chunk content. -/
def fuzzy_match_score (sentence content : String) : ℚ :=
  let stopwords : List String :=
    ["the", "a", "an", "is", "are", "was", "were", "be", "been",
     "to", "of", "in", "for", "on", "with", "at", "by", "from",
     "this", "that", "these", "those", "it", "its"]
  let sentence_lower := pyStrip (stripMarkers (pyLower sentence))
  let content_lower := pyLower content
  let sentence_words := (wordSet sentence_lower).filter (fun w => w ∉ stopwords)
  let content_words := (wordSet content_lower).filter (fun w => w ∉ stopwords)
  if sentence_words = [] then 0
  else ((sentence_words.filter (fun w => w ∈ content_words)).length : ℚ) / sentence_words.length

/-- `ValidationService._find_matching_excerpt`: the content sentence with
the highest word overlap with the answer sentence, truncated to 200
characters. -/
def find_matching_excerpt (sentence content : String) : String :=
  let sentence_words := wordSet (pyLower sentence)
  let content_sentences := split_sentences content
  let best := content_sentences.foldl
    (fun (acc : String × Nat) excerpt =>
      let excerpt_words := wordSet (pyLower excerpt)
      let overlap := (sentence_words.filter (fun w => w ∈ excerpt_words)).length
      if overlap > acc.2 then (excerpt, overlap) else acc)
    ("", 0)
  if best.1.length > 200 then String.mk (best.1.toList.take 200) ++ "..." else best.1

/-- Strategy 1 of `_validate_sentence` (CITED): walk the `[k]` citations of
the sentence; the first in-range chunk whose semantic similarity with the
sentence exceeds 0.5 grounds it. -/
def citedSearch (sim : String → String → ℚ) (sentence : String)
    (chunks : List ContextChunk) : List Nat → Option GroundingResult
  | [] => none
  | n :: rest =>
    if n = 0 then citedSearch sim sentence chunks rest
    else
      match chunks[n - 1]? with
      | none => citedSearch sim sentence chunks rest
      | some chunk =>
        let similarity := semantic_similarity sim sentence chunk.content
        if 1/2 < similarity then
          some { sentence := sentence
                 is_grounded := true
                 confidence := similarity
                 matched_chunks := [chunk.chunk_id]
                 matched_excerpts := [find_matching_excerpt sentence chunk.content]
                 match_type := "cited" }
        else citedSearch sim sentence chunks rest

/-- Strategy 1 entry: only sentences containing `[k]` markers. -/
def citedStep (sim : String → String → ℚ) (sentence : String)
    (chunks : List ContextChunk) : Option GroundingResult :=
  citedSearch sim sentence chunks (findCitations sentence)

/-- Strategy 2 of `_validate_sentence` (EXACT): first content-index entry
whose lowercased content contains the marker-stripped sentence, which must
be longer than 20 characters. -/
def exactStep (sentence : String) (content_index : List (String × String)) :
    Option GroundingResult :=
  let sentence_lower := pyLower sentence
  match content_index.find? (fun kv =>
      let clean_sentence := pyStrip (stripMarkers sentence_lower)
      decide (clean_sentence.length > 20) && containsSub kv.2 clean_sentence) with
  | some kv =>
    some { sentence := sentence
           is_grounded := true
           confidence := 1
           matched_chunks := [kv.1]
           matched_excerpts := [pyStrip (stripMarkers sentence_lower)]
           match_type := "exact" }
  | none => none

/-- The best-match fold shared by strategies 3 and 4: strictly improving
`(score, chunk id, excerpt)` triple over the context chunks. -/
def bestMatch (score : String → String → ℚ) (sentence : String)
    (chunks : List ContextChunk) : ℚ × Option String × String :=
  chunks.foldl
    (fun acc chunk =>
      let s := score sentence chunk.content
      if s > acc.1 then (s, some chunk.chunk_id, find_matching_excerpt sentence chunk.content)
      else acc)
    (0, none, "")

/-- Python `[x] if x else []` for the best-chunk option (an empty chunk id
is falsy). -/
def listIfSome (o : Option String) : List String :=
  match o with
  | some s => listIfTruthy s
  | none => []

/-- `ValidationService._validate_sentence`: the four-strategy cascade. -/
def validate_sentence (sim : String → String → ℚ) (sentence : String)
    (chunks : List ContextChunk) (content_index : List (String × String)) :
    GroundingResult :=
  match citedStep sim sentence chunks with
  | some r => r
  | none =>
  match exactStep sentence content_index with
  | some r => r
  | none =>
  let fuzzy := bestMatch (fun a b => fuzzy_match_score a b) sentence chunks
  if 3/5 < fuzzy.1 then
    { sentence := sentence
      is_grounded := true
      confidence := fuzzy.1
      matched_chunks := listIfSome fuzzy.2.1
      matched_excerpts := listIfTruthy fuzzy.2.2
      match_type := "paraphrase" }
  else
  let sem := bestMatch (semantic_similarity sim) sentence chunks
  if 7/10 < sem.1 then
    { sentence := sentence
      is_grounded := true
      confidence := sem.1
      matched_chunks := listIfSome sem.2.1
      matched_excerpts := listIfTruthy sem.2.2
      match_type := "inferred" }
  else
    { sentence := sentence
      is_grounded := false
      confidence := max fuzzy.1 sem.1
      matched_chunks := []
      matched_excerpts := []
      match_type := "ungrounded" }

/-- Python dict insertion (update in place if the key exists, else append);
used for the `content_index` comprehension. -/
def dictInsert (d : List (String × String)) (k v : String) : List (String × String) :=
  if d.any (fun p => p.1 = k) then d.map (fun p => if p.1 = k then (k, v) else p)
  else d ++ [(k, v)]

/-- The `content_index` dict comprehension of `validate_answer`. -/
def buildContentIndex (chunks : List ContextChunk) : List (String × String) :=
  chunks.foldl (fun d c => dictInsert d c.chunk_id (pyLower c.content)) []

/-- `ValidationService.validate_answer`. -/
def validate_answer (sim : String → String → ℚ) (min_confidence : ℚ)
    (answer : String) (context_chunks : List ContextChunk) : ValidationResult :=
  if answer = "" ∨ context_chunks = [] then
    { is_valid := false
      grounding_score := 0
      sentence_results := []
      warnings := ["Empty answer or context"]
      errors := [] }
  else
    let sentences := split_sentences answer
    let content_index := buildContentIndex context_chunks
    let sentence_results :=
      sentences.map (fun s => validate_sentence sim s context_chunks content_index)
    let grounded_count := sentence_results.countP (fun r => r.is_grounded)
    let grounding_score : ℚ :=
      if sentence_results ≠ [] then (grounded_count : ℚ) / sentence_results.length else 0
    let is_valid := min_confidence ≤ grounding_score
    let ungrounded := (sentence_results.filter (fun r => !r.is_grounded)).map (fun r => r.sentence)
    let warnings₁ : List String :=
      if ungrounded ≠ [] then [toString ungrounded.length ++ " sentence(s) could not be verified"]
      else []
    let errors : List String :=
      if grounding_score < 1/2 then ["Less than 50% of the answer is grounded in sources"]
      else []
    let warnings₂ : List String :=
      if findCitations answer = [] then ["Answer contains no citation markers"]
      else []
    { is_valid := is_valid
      grounding_score := grounding_score
      sentence_results := sentence_results
      warnings := warnings₁ ++ warnings₂
      errors := errors }

/-! ## Retrieval service (`app/services/retrieval_service.py`) -/

/-- `RetrievedChunk` dataclass. -/
structure RetrievedChunk where
  chunk_id : String
  content : String
  document_id : String
  document_name : String
  page_number : Option Nat
  section_title : Option String
  chunk_type : String
  bm25_score : ℚ := 0
  dense_score : ℚ := 0
  structural_score : ℚ := 0
  final_score : ℚ := 0
  confidence_weight : ℚ := 1
deriving DecidableEq, Repr

/-- A row of the `chunks` table as the retrieval engine reads it. -/
structure ChunkRow where
  id : String
  document_id : String
  content : String
  chunk_type : String
  page_number : Option Nat
  section_title : Option String
  confidence_weight : ℚ
deriving DecidableEq, Repr

/-- A row of the `documents` table as the retrieval engine reads it. -/
structure DocRow where
  id : String
  filename : String
  category : Option String
  reliability_score : ℚ
deriving DecidableEq, Repr

/-- The relational store the retrieval engine queries, with rows in the
order the database returns them. -/
structure Db where
  chunks : List ChunkRow
  documents : List DocRow
deriving Repr

/-- `RetrievalService._extract_query_terms`: lowercase words, drop
stopwords and words of length at most 2. -/
def extract_query_terms (query : String) : List String :=
  let stopwords : List String :=
    ["the", "a", "an", "is", "are", "was", "were", "what", "how",
     "when", "where", "why", "who", "which", "can", "could", "would",
     "should", "do", "does", "did", "have", "has", "had", "be", "been",
     "being", "for", "to", "of", "in", "on", "at", "by", "with"]
  (wordsOf (pyLower query)).filter (fun w => w ∉ stopwords ∧ w.length > 2)

/-- A candidate entry: chunk id with its `bm25_score` and `dense_score`. -/
structure Candidate where
  chunk_id : String
  bm25_score : ℚ
  dense_score : ℚ
deriving DecidableEq, Repr

/-- `defaultdict` update used by `_merge_results`: modify the entry for a
key, creating a zero entry at the end on first touch. -/
def candUpdate (cands : List Candidate) (k : String) (f : Candidate → Candidate) :
    List Candidate :=
  if cands.any (fun c => c.chunk_id = k) then
    cands.map (fun c => if c.chunk_id = k then f c else c)
  else
    cands ++ [f { chunk_id := k, bm25_score := 0, dense_score := 0 }]

/-- `RetrievalService._merge_results`: normalise the absolute BM25 scores
by their maximum and union with the dense results. -/
def merge_results (bm25_results : List (String × ℚ)) (dense_results : List (String × ℚ)) :
    List Candidate :=
  let step1 :=
    if bm25_results ≠ [] then
      let max_bm25 := (bm25_results.map (fun p => p.2)).foldl max ((bm25_results.map (fun p => p.2)).headI)
      bm25_results.foldl
        (fun cands p =>
          candUpdate cands p.1 (fun c =>
            { c with bm25_score := if max_bm25 > 0 then p.2 / max_bm25 else 0 }))
        []
    else []
  dense_results.foldl
    (fun cands p => candUpdate cands p.1 (fun c => { c with dense_score := p.2 }))
    step1

/-- Candidate lookup (`candidates.get(chunk.id, {})`). -/
def candLookup (cands : List Candidate) (k : String) : Option Candidate :=
  cands.find? (fun c => c.chunk_id = k)

/-- `RetrievalService._filter_candidates`: keep candidates whose chunk
resolves to a document passing the allowlist, category and reliability
constraints.  Like the code, the surviving dict is rebuilt keyed in the
order the database returns the chunks. -/
def filter_candidates (db : Db) (cands : List Candidate)
    (document_ids : List String) (categories : List String)
    (min_reliability : ℚ) : List Candidate :=
  if cands = [] then []
  else
    let chunkRows := db.chunks.filter (fun c => (candLookup cands c.id).isSome)
    chunkRows.foldl
      (fun acc chunk =>
        match db.documents.find? (fun d => d.id = chunk.document_id) with
        | none => acc
        | some doc =>
          if document_ids ≠ [] ∧ doc.id ∉ document_ids then acc
          else if categories ≠ [] ∧ (match doc.category with
                | some cat => decide (cat ∉ categories)
                | none => true) = true then acc
          else if doc.reliability_score < min_reliability then acc
          else match candLookup cands chunk.id with
            | some c => acc ++ [c]
            | none => acc)
      []

/-- `RetrievalService._structural_rerank`: structural score and weighted
fusion for every candidate chunk. -/
def structural_rerank (db : Db) (cands : List Candidate)
    (query : String) (query_terms : List String) : List RetrievedChunk :=
  if cands = [] then []
  else
    let chunkRows := db.chunks.filter (fun c => (candLookup cands c.id).isSome)
    let query_lower := pyLower query
    chunkRows.map (fun chunk =>
      let scores := candLookup cands chunk.id
      let doc := db.documents.find? (fun d => d.id = chunk.document_id)
      let content_lower := pyLower chunk.content
      let exactBoost : ℚ := if containsSub content_lower query_lower then 1/2 else 0
      let term_coverage : ℚ :=
        ((query_terms.filter (fun t => containsSub content_lower t)).length : ℚ) /
          (max query_terms.length 1)
      let headingBoost : ℚ := if chunk.chunk_type = "heading" then 1/5 else 0
      let structural_score := exactBoost + term_coverage * (3/10) + headingBoost
      let doc_boost :=
        (match doc with
         | some d => d.reliability_score
         | none => 1) * chunk.confidence_weight
      let bm25 := match scores with
        | some c => c.bm25_score
        | none => 0
      let dense := match scores with
        | some c => c.dense_score
        | none => 0
      let final_score :=
        (settings.BM25_WEIGHT * bm25 + settings.DENSE_WEIGHT * dense +
         settings.STRUCTURAL_WEIGHT * structural_score) * doc_boost
      { chunk_id := chunk.id
        content := chunk.content
        document_id := chunk.document_id
        document_name := (match doc with
          | some d => d.filename
          | none => "Unknown")
        page_number := chunk.page_number
        section_title := chunk.section_title
        chunk_type := chunk.chunk_type
        bm25_score := bm25
        dense_score := dense
        structural_score := structural_score
        final_score := final_score
        confidence_weight := chunk.confidence_weight })

/-- Stable insertion into a descending-by-`final_score` list: the new
element goes before the first strictly smaller score, after any equal
ones already present. -/
def insertByScore (x : RetrievedChunk) : List RetrievedChunk → List RetrievedChunk
  | [] => [x]
  | y :: ys =>
    if y.final_score ≤ x.final_score then x :: y :: ys
    else y :: insertByScore x ys

/-- Python's stable `sorted(..., key=final_score, reverse=True)`:
descending insertion sort (any stable sort computes the same list). -/
def sortByFinalDesc : List RetrievedChunk → List RetrievedChunk
  | [] => []
  | x :: xs => insertByScore x (sortByFinalDesc xs)

/-- Steps 1-6 of `RetrievalService.retrieve`: term extraction, merge of
the index hits, constraint filtering and structural rerank.  The BM25 hits
(`abs`-valued FTS scores) and the dense hits come from the lexical and
vector indices and are passed in as data. -/
def retrieve_results (db : Db) (bm25_results : List (String × ℚ))
    (dense_results : List (String × ℚ)) (query : String)
    (document_ids : List String) (categories : List String)
    (min_reliability : ℚ) : List RetrievedChunk :=
  let query_terms := extract_query_terms query
  let candidates := merge_results bm25_results dense_results
  let candidates :=
    if document_ids ≠ [] ∨ categories ≠ [] ∨ min_reliability > 0 then
      filter_candidates db candidates document_ids categories min_reliability
    else candidates
  structural_rerank db candidates query query_terms

/-- `RetrievalService.retrieve`: the full pipeline, ending in the stable
descending sort on `final_score` truncated to `top_k`. -/
def retrieve (db : Db) (bm25_results : List (String × ℚ)) (dense_results : List (String × ℚ))
    (query : String) (document_ids : List String) (categories : List String)
    (min_reliability : ℚ) (top_k : Nat) : List RetrievedChunk :=
  (sortByFinalDesc
    (retrieve_results db bm25_results dense_results query document_ids categories
      min_reliability)).take top_k

/-! ## Context service (`app/services/context_service.py`) -/

/-- Sum of the string lengths of the accumulated context parts. -/
def sumLens (parts : List String) : Nat :=
  parts.foldl (fun a p => a + p.length) 0

/-- The citation string built by `build_context` for a chunk
(`filename | p.N | §section`, falsy parts omitted). -/
def chunkCitation (chunk : RetrievedChunk) : String :=
  let parts := [chunk.document_name] ++
    (match chunk.page_number with
     | some p => if p ≠ 0 then ["p." ++ toString p] else []
     | none => []) ++
    (match chunk.section_title with
     | some t => if t ≠ "" then ["ยง" ++ t] else []
     | none => [])
  String.intercalate " | " parts

/-- The order-preserving dedup of `build_context`: keep a chunk when the
first 100 characters of its content are new. -/
def dedupByKey (chunks : List RetrievedChunk) : List RetrievedChunk :=
  (chunks.foldl
    (fun (acc : List String × List RetrievedChunk) chunk =>
      let key := String.mk (chunk.content.toList.take 100)
      if key ∈ acc.1 then acc else (acc.1 ++ [key], acc.2 ++ [chunk]))
    ([], [])).2

/-- The token-budget packing loop of `build_context`: accumulate formatted
parts (and the matching `ContextChunk`s) while the floored character
estimate stays within `max_tokens`; `break` on the first overflow. -/
def packLoop (max_tokens : Nat) : Nat → List String → List ContextChunk →
    List RetrievedChunk → List String × List ContextChunk
  | _, parts, ccs, [] => (parts, ccs)
  | i, parts, ccs, chunk :: rest =>
    let marker := "[" ++ toString i ++ "]"
    let formatted := marker ++ " " ++ chunk.content
    if sumLens parts / 4 + formatted.length / 4 > max_tokens then (parts, ccs)
    else
      packLoop max_tokens (i + 1) (parts ++ [formatted])
        (ccs ++ [{ marker := marker
                   content := chunk.content
                   citation := chunkCitation chunk
                   chunk_id := chunk.chunk_id }])
        rest

/-- `ContextService.build_context`. -/
def build_context (max_tokens : Nat) (chunks : List RetrievedChunk) :
    String × List ContextChunk :=
  if chunks = [] then ("", [])
  else
    let unique_chunks := dedupByKey chunks
    let packed := packLoop max_tokens 1 [] [] unique_chunks
    let context_header := "REFERENCE SOURCES (use citation markers in your answer):\n\n"
    (context_header ++ String.intercalate "\n\n" packed.1, packed.2)

/-! ## Extractive mode (`app/services/llm_service.py`) -/

/-- One verified-quote record produced by `_parse_extractive_response`. -/
structure ExtractiveQuote where
  quote : String
  citation : String
  source : String
  verified : Bool
deriving DecidableEq, Repr

/-- The dict returned by `_parse_extractive_response`. -/
structure ExtractiveResult where
  answer : Option String
  found : Bool
  quotes : List ExtractiveQuote
  all_verified : Bool
deriving DecidableEq, Repr

/-- Attempt to match `"([^"]+)"\s*\[(\d+)\]` at the head of the input.
Returns the quote group, the digit group, and the remainder. -/
def matchQuoteAt : List Char → Option (List Char × List Char × List Char)
  | '"' :: t =>
    let q := t.takeWhile (fun c => c ≠ '"')
    if q = [] then none
    else
      match t.drop q.length with
      | '"' :: u =>
        let u' := u.dropWhile isSpace
        match u' with
        | '[' :: v =>
          let ds := v.takeWhile isDigit09
          if ds ≠ [] ∧ (v.drop ds.length).head? = some ']' then
            some (q, ds, v.drop (ds.length + 1))
          else none
        | _ => none
      | _ => none
  | _ => none

/-- `re.findall` scan for the quote pattern, driven by a character budget
(`fuel` is instantiated with the input length, which bounds the number of
scanning steps). -/
def findQuotePairsAux : Nat → List Char → List (String × String)
  | 0, _ => []
  | _ + 1, [] => []
  | fuel + 1, c :: t =>
    match matchQuoteAt (c :: t) with
    | some (q, ds, rest) => (String.mk q, String.mk ds) :: findQuotePairsAux fuel rest
    | none => findQuotePairsAux fuel t

/-- `re.findall(r'"([^"]+)"\s*\[(\d+)\]', response)`: leftmost
non-overlapping quote/citation pairs. -/
def findQuotePairs (response : String) : List (String × String) :=
  findQuotePairsAux response.length response.toList

/-- The verification loop body of `_parse_extractive_response` for one
extracted pair: out-of-range citations are dropped, in-range ones retained
with the substring check's outcome. -/
def verifyQuote (context_chunks : List ContextChunk) (p : String × String) :
    List ExtractiveQuote :=
  let idx : Int := (natOfDigits p.2.toList : Int) - 1
  if 0 ≤ idx ∧ idx < context_chunks.length then
    match context_chunks[idx.toNat]? with
    | some chunk =>
      [{ quote := p.1
         citation := "[" ++ p.2 ++ "]"
         source := chunk.citation
         verified := containsSub (pyLower chunk.content) (pyLower p.1) }]
    | none => []
  else []

/-- `ExtractiveLLMService._parse_extractive_response`. -/
def parse_extractive_response (response : String) (context_chunks : List ContextChunk) :
    ExtractiveResult :=
  if containsSub (pyUpper response) "NOT_FOUND" then
    { answer := none, found := false, quotes := [], all_verified := false }
  else
    let quotes := findQuotePairs response
    let verified_quotes := quotes.flatMap (verifyQuote context_chunks)
    { answer := some response
      found := true
      quotes := verified_quotes
      all_verified :=
        if verified_quotes ≠ [] then verified_quotes.all (fun q => q.verified) else false }

/-! ## Ingestion service (`app/services/ingestion_service.py`) -/

/-- The chunk attributes the ingestion chunkers manipulate.  The content
hash is produced by the opaque `hashFn` parameter (SHA-256 in the code). -/
structure IngChunk where
  content : String
  chunk_type : String
  page_number : Option Nat
  sequence_index : Nat
  confidence_weight : ℚ
  content_hash : String
deriving DecidableEq, Repr

/-- Append `" " ++ s` to the content of the last chunk of a list
(`merged[-1].content += " " + buffer.content`). -/
def appendToLast (l : List IngChunk) (s : String) : List IngChunk :=
  match l with
  | [] => []
  | [x] => [{ x with content := x.content ++ " " ++ s }]
  | x :: xs => x :: appendToLast xs s

/-- The scanning loop of `_merge_small_chunks`: `buffer` accumulates a run
of small non-heading chunks; a large-or-heading chunk flushes the buffer
(into itself when the buffer is still small, else as its own chunk); a
trailing buffer is folded into the last emitted chunk. -/
def mergeLoop (min_size : Nat) : List IngChunk → Option IngChunk → List IngChunk →
    List IngChunk
  | merged, buffer, [] =>
    (match buffer with
     | none => merged
     | some b =>
       match merged with
       | [] => [b]
       | _ :: _ => appendToLast merged b.content)
  | merged, buffer, chunk :: rest =>
    if chunk.content.length < min_size ∧ chunk.chunk_type ≠ "heading" then
      match buffer with
      | some b =>
        mergeLoop min_size merged (some { b with content := b.content ++ " " ++ chunk.content }) rest
      | none => mergeLoop min_size merged (some chunk) rest
    else
      match buffer with
      | some b =>
        if b.content.length < min_size then
          mergeLoop min_size (merged ++ [{ chunk with content := b.content ++ " " ++ chunk.content }])
            none rest
        else
          mergeLoop min_size (merged ++ [b, chunk]) none rest
      | none => mergeLoop min_size (merged ++ [chunk]) none rest

/-- `IngestionService._merge_small_chunks` (default `min_size = 100`). -/
def merge_small_chunks (chunks : List IngChunk) (min_size : Nat) : List IngChunk :=
  if chunks.length < 2 then chunks else mergeLoop min_size [] none chunks

/-- Locate a blank-line separator `\n\s*\n` starting at the head of the
input; returns the remainder after the separator.  The greedy `\s*` with
backtracking consumes the whitespace run up to its last newline. -/
def matchParaSep : List Char → Option (List Char)
  | '\n' :: rest =>
    let run := rest.takeWhile isSpace
    if run.any (fun c => c = '\n') then
      let lastNL := run.length - 1 - (run.reverse.findIdx (fun c => c = '\n'))
      some (rest.drop (lastNL + 1))
    else none
  | _ => none

/-- `re.split(r"\n\s*\n", text)` scan, with the input length as the step
budget. -/
def splitParasAux : Nat → List Char → List Char → List (List Char)
  | 0, acc, _ => [acc.reverse]
  | _ + 1, acc, [] => [acc.reverse]
  | fuel + 1, acc, c :: t =>
    match matchParaSep (c :: t) with
    | some rest => acc.reverse :: splitParasAux fuel [] rest
    | none => splitParasAux fuel (c :: acc) t

/-- `re.split(r"\n\s*\n", text)`: paragraphs split at blank lines. -/
def splitParas (text : String) : List String :=
  (splitParasAux text.length [] text.toList).map String.mk

/-- Locate a sentence separator `(?<=[.!?])\s+` at the head of the input
given the previous character; the greedy `\s+` consumes the whole
whitespace run. -/
def matchSentSep (prev : Option Char) : List Char → Option (List Char)
  | c :: t =>
    if isSpace c ∧ (prev = some '.' ∨ prev = some '!' ∨ prev = some '?') then
      some (t.dropWhile isSpace)
    else none
  | [] => none

/-- `re.split(r"(?<=[.!?])\s+", para)` scan. -/
def splitSentSepAux : Nat → Option Char → List Char → List Char → List (List Char)
  | 0, _, acc, _ => [acc.reverse]
  | _ + 1, _, acc, [] => [acc.reverse]
  | fuel + 1, prev, acc, c :: t =>
    match matchSentSep prev (c :: t) with
    | some rest => acc.reverse :: splitSentSepAux fuel none [] rest
    | none => splitSentSepAux fuel (some c) (c :: acc) t

/-- `re.split(r"(?<=[.!?])\s+", para)`: split after sentence punctuation. -/
def splitAfterPunct (para : String) : List String :=
  (splitSentSepAux para.length none [] para.toList).map String.mk

/-- State of the chunk accumulator in `_chunk_text_with_structure`. -/
structure ChunkAccum where
  chunks : List IngChunk
  current_chunk : List String
  current_length : Nat
  sequence_index : Nat
deriving Repr

/-- Flush the running buffer as a PARAGRAPH chunk. -/
def flushChunk (hashFn : String → String) (page_number : Option Nat)
    (st : ChunkAccum) : ChunkAccum :=
  let content := String.intercalate " " st.current_chunk
  { chunks := st.chunks ++
      [{ content := content
         chunk_type := "paragraph"
         page_number := page_number
         sequence_index := st.sequence_index
         confidence_weight := 1
         content_hash := hashFn content }]
    current_chunk := []
    current_length := 0
    sequence_index := st.sequence_index + 1 }

/-- The per-sentence accumulation loop for oversized paragraphs. -/
def addSentences (hashFn : String → String) (page_number : Option Nat)
    (st : ChunkAccum) (sentences : List String) : ChunkAccum :=
  sentences.foldl
    (fun st sent =>
      let sent := pyStrip sent
      if sent = "" then st
      else
        let st :=
          if st.current_length + sent.length > settings.CHUNK_SIZE ∧ st.current_chunk ≠ [] then
            flushChunk hashFn page_number st
          else st
        { st with current_chunk := st.current_chunk ++ [sent]
                  current_length := st.current_length + sent.length + 1 })
    st

/-- The per-paragraph loop of `_chunk_text_with_structure`. -/
def addParagraphs (hashFn : String → String) (page_number : Option Nat)
    (st : ChunkAccum) (paragraphs : List String) : ChunkAccum :=
  paragraphs.foldl
    (fun st para =>
      let para := pyStrip para
      if para = "" then st
      else if para.length > settings.CHUNK_SIZE then
        let st := if st.current_chunk ≠ [] then flushChunk hashFn page_number st else st
        addSentences hashFn page_number st (splitAfterPunct para)
      else
        let st :=
          if st.current_length + para.length > settings.CHUNK_SIZE ∧ st.current_chunk ≠ [] then
            flushChunk hashFn page_number st
          else st
        { st with current_chunk := st.current_chunk ++ [para]
                  current_length := st.current_length + para.length + 1 })
    st

/-- `IngestionService._chunk_text_with_structure`: paragraph-buffered
chunking with a restart of `sequence_index` at 0 on every call. -/
def chunk_text_with_structure (hashFn : String → String) (text : String)
    (page_number : Option Nat) : List IngChunk :=
  let st : ChunkAccum :=
    { chunks := [], current_chunk := [], current_length := 0, sequence_index := 0 }
  let st := addParagraphs hashFn page_number st (splitParas text)
  if st.current_chunk ≠ [] then (flushChunk hashFn page_number st).chunks else st.chunks

/-- `IngestionService._process_pdf`: the page texts extracted by the PDF
reader are the input; pages whose stripped text is empty are skipped, and
each page is chunked independently (pages are numbered from 1). -/
def process_pdf (hashFn : String → String) (pages : List String) : List IngChunk :=
  (pages.enumFrom 1).flatMap
    (fun page =>
      if pyStrip page.2 = "" then []
      else chunk_text_with_structure hashFn page.2 (some page.1))

/-! ## Ingestion transaction (`IngestionService.ingest_file`) -/

/-- A row of the `documents` table as `ingest_file` writes it. -/
structure DocumentRow where
  id : String
  filename : String
  file_hash : String
  status : String
  error_message : Option String
  chunk_count : Nat
deriving DecidableEq, Repr

/-- A persisted chunk row tagged with its owning document. -/
structure StoredChunk where
  document_id : String
  chunk : IngChunk
deriving DecidableEq, Repr

/-- The durable store `ingest_file` transacts against. -/
structure Store where
  documents : List DocumentRow
  chunks : List StoredChunk
deriving DecidableEq, Repr

/-- `IngestionService.ingest_file`.  The fallible extraction/chunking step
(`_process_document`) is passed in as `processResult`; commits are modelled
as immediate state updates.  On a duplicate `file_hash` the existing
document is returned unchanged; on extraction failure the document row is
committed as FAILED with the error message and the error is re-raised. -/
def ingest_file (st : Store) (filename file_hash new_id : String)
    (processResult : Except String (List IngChunk)) :
    Store × Except String DocumentRow :=
  match st.documents.find? (fun d => d.file_hash = file_hash) with
  | some existing => (st, .ok existing)
  | none =>
    let document : DocumentRow :=
      { id := new_id
        filename := filename
        file_hash := file_hash
        status := "processing"
        error_message := none
        chunk_count := 0 }
    match processResult with
    | .ok chunks =>
      let document := { document with status := "indexed", chunk_count := chunks.length }
      ({ documents := st.documents ++ [document]
         chunks := st.chunks ++ chunks.map (fun c => { document_id := new_id, chunk := c }) },
       .ok document)
    | .error e =>
      let document := { document with status := "failed", error_message := some e }
      ({ documents := st.documents ++ [document], chunks := st.chunks },
       .error e)

/-! ## Vector index (`app/services/vector_index_service.py`) -/

/-- The FAISS index plus its ordered id mapping; the vector payload is an
abstract type `V` (embeddings are produced by the opaque model). -/
structure VIndex (V : Type) where
  vectors : List V
  chunk_ids : List String
deriving Repr

/-- The invariant relating the index to its mapping: one id per vector
slot. -/
def VIndex.wf {V : Type} (st : VIndex V) : Prop :=
  st.vectors.length = st.chunk_ids.length

/-- `VectorIndexService.add_chunks`: embed the contents (one vector per
content, as `embed_batch` guarantees) and append, extending the mapping. -/
def add_chunks {V : Type} (embed : String → V) (st : VIndex V)
    (chunk_ids : List String) (contents : List String) : VIndex V :=
  if chunk_ids = [] ∨ contents = [] then st
  else
    { vectors := st.vectors ++ contents.map embed
      chunk_ids := st.chunk_ids ++ chunk_ids }

/-- `VectorIndexService.remove_chunks`: keep the positions whose id is not
being removed and rebuild both the vectors (`index.reconstruct(i)`) and the
mapping from those positions. -/
def remove_chunks {V : Type} (st : VIndex V) (chunk_ids_to_remove : List String) :
    VIndex V :=
  let indices_to_keep :=
    (st.chunk_ids.enum.filter (fun p => p.2 ∉ chunk_ids_to_remove)).map (fun p => p.1)
  if indices_to_keep.length = st.chunk_ids.length then st
  else
    { vectors := indices_to_keep.filterMap (fun i => st.vectors[i]?)
      chunk_ids := indices_to_keep.filterMap (fun i => st.chunk_ids[i]?) }

/-- `VectorIndexService.search`: FAISS returns `(score, index)` rows for
the embedded query (passed in as `raw`, scores abstract); out-of-range
positions are dropped and the rest mapped through the id mapping. -/
def searchIndex {V : Type} (st : VIndex V) (raw : List (ℚ × Int)) :
    List (String × ℚ) :=
  if st.vectors.length = 0 then []
  else
    raw.foldl
      (fun acc p =>
        if (0 : Int) ≤ p.2 ∧ p.2 < (st.chunk_ids.length : Int) then
          match st.chunk_ids[p.2.toNat]? with
          | some cid => acc ++ [(cid, p.1)]
          | none => acc
        else acc)
      []

/-- The document text carried by a chunk list, in order, with single
spaces at the merge seams (the separator `_merge_small_chunks` inserts). -/
def joinContents : List IngChunk → String
  | [] => ""
  | [c] => c.content
  | c :: rest => c.content ++ " " ++ joinContents rest

/-! ## Theorems -/

theorem add_div_four_le (a b : Nat) : (a + b) / 4 ≤ a / 4 + b / 4 + 1 := by omega

theorem sumLens_append (l : List String) (s : String) :
    sumLens (l ++ [s]) = sumLens l + s.length := by
  simp [sumLens, List.foldl_append]

theorem packLoop_budget (max_tokens : Nat) :
    ∀ (chunks : List RetrievedChunk) (i : Nat) (parts : List String)
      (ccs : List ContextChunk),
      sumLens parts / 4 ≤ max_tokens + 1 →
      sumLens (packLoop max_tokens i parts ccs chunks).1 / 4 ≤ max_tokens + 1 := by
  intro chunks
  induction chunks with
  | nil => intro i parts ccs h; simpa [packLoop] using h
  | cons c rest ih =>
    intro i parts ccs h
    simp only [packLoop]
    split
    · simpa using h
    · rename_i hguard
      apply ih
      rw [sumLens_append]
      have hle : sumLens parts / 4 +
          ("[" ++ toString i ++ "]" ++ " " ++ c.content).length / 4 ≤ max_tokens := by
        omega
      calc (sumLens parts + ("[" ++ toString i ++ "]" ++ " " ++ c.content).length) / 4
          ≤ sumLens parts / 4 + ("[" ++ toString i ++ "]" ++ " " ++ c.content).length / 4 + 1 :=
            add_div_four_le _ _
        _ ≤ max_tokens + 1 := by omega

theorem packLoop_parts (max_tokens : Nat) :
    ∀ (chunks : List RetrievedChunk) (i : Nat) (parts : List String)
      (ccs : List ContextChunk),
      parts = ccs.map (fun cc => cc.marker ++ " " ++ cc.content) →
      (packLoop max_tokens i parts ccs chunks).1 =
        (packLoop max_tokens i parts ccs chunks).2.map
          (fun cc => cc.marker ++ " " ++ cc.content) := by
  intro chunks
  induction chunks with
  | nil => intro i parts ccs h; simpa [packLoop] using h
  | cons c rest ih =>
    intro i parts ccs h
    simp only [packLoop]
    split
    · simpa using h
    · apply ih
      simp [h]

/-- C9 (amended): `build_context` accumulates chunks in order and stops at
the first chunk where the code's estimate (the floored character count of
the accumulated parts plus the floored character count of the next
formatted chunk) would exceed `max_tokens`; consequently the emitted
context's estimated tokens (total part characters ÷ 4) never exceed
`max_tokens + 1`. -/
theorem build_context_budget_bound (max_tokens : Nat) (chunks : List RetrievedChunk) :
    sumLens ((build_context max_tokens chunks).2.map
      (fun cc => cc.marker ++ " " ++ cc.content)) / 4 ≤ max_tokens + 1 := by
  unfold build_context
  split
  · simp [sumLens]
  · have hparts := packLoop_parts max_tokens (dedupByKey chunks) 1 [] [] (by simp)
    have hbudget := packLoop_budget max_tokens (dedupByKey chunks) 1 [] []
      (by simp [sumLens])
    rw [← hparts]
    exact hbudget

/-- C9 counterexample to the claim as stated: with `max_tokens = 2` and the
chunks `"ab"`, `"cd"`, both survive the check, yet the emitted context's
estimated token count (characters ÷ 4) is 3 > 2. -/
theorem build_context_budget_counterexample :
    2 < sumLens ((build_context 2
      [⟨"c1", "ab", "d1", "doc", none, none, "paragraph", 0, 0, 0, 0, 1⟩,
       ⟨"c2", "cd", "d1", "doc", none, none, "paragraph", 0, 0, 0, 0, 1⟩]).2.map
      (fun cc => cc.marker ++ " " ++ cc.content)) / 4 := by
  with_unfolding_all decide

/-- C7: the code restarts `sequence_index` at 0 for every PDF page, so a
two-page PDF whose pages extract `"Hello."` and `"World."` produces the
sequence indices `[0, 0]` — not the dense monotonic `[0, 1]` the
specification's invariant requires. -/
theorem process_pdf_sequence_restarts :
    (process_pdf (fun _ => "") ["Hello.", "World."]).map (fun c => c.sequence_index) = [0, 0]
    ∧ (process_pdf (fun _ => "") ["Hello.", "World."]).map (fun c => c.sequence_index)
        ≠ List.range (process_pdf (fun _ => "") ["Hello.", "World."]).length := by
  with_unfolding_all decide

/-- C8: when the extraction step fails after the document row is created,
`ingest_file` commits the document as FAILED with the error message,
re-raises the error, and leaves the chunk table untouched, so no chunk of
the new document is persisted. -/
theorem ingest_file_failure_semantics (st : Store) (filename file_hash new_id e : String)
    (hdup : st.documents.find? (fun d => d.file_hash = file_hash) = none)
    (hfresh : ∀ c ∈ st.chunks, c.document_id ≠ new_id) :
    (ingest_file st filename file_hash new_id (.error e)).2 = .error e
    ∧ (∃ doc ∈ (ingest_file st filename file_hash new_id (.error e)).1.documents,
        doc.id = new_id ∧ doc.status = "failed" ∧ doc.error_message = some e)
    ∧ (ingest_file st filename file_hash new_id (.error e)).1.chunks = st.chunks
    ∧ ∀ c ∈ (ingest_file st filename file_hash new_id (.error e)).1.chunks,
        c.document_id ≠ new_id := by
  unfold ingest_file
  rw [hdup]
  refine ⟨rfl,
    ⟨⟨new_id, filename, file_hash, "failed", some e, 0⟩, ?_, rfl, rfl, rfl⟩, rfl, hfresh⟩
  simp

/-- C8 witness: a concrete failing ingestion into an empty store. -/
theorem ingest_file_failure_semantics_witness :
    ((Store.mk [] []).documents.find? (fun d => d.file_hash = "h") = none)
    ∧ ((ingest_file ⟨[], []⟩ "f.txt" "h" "d1" (.error "boom")).2 = .error "boom"
      ∧ (∃ doc ∈ (ingest_file ⟨[], []⟩ "f.txt" "h" "d1" (.error "boom")).1.documents,
          doc.id = "d1" ∧ doc.status = "failed" ∧ doc.error_message = some "boom")
      ∧ (ingest_file ⟨[], []⟩ "f.txt" "h" "d1" (.error "boom")).1.chunks = (Store.mk [] []).chunks
      ∧ ∀ c ∈ (ingest_file ⟨[], []⟩ "f.txt" "h" "d1" (.error "boom")).1.chunks,
          c.document_id ≠ "d1") :=
  ⟨rfl, ingest_file_failure_semantics ⟨[], []⟩ "f.txt" "h" "d1" "boom" rfl (by simp)⟩

theorem filterMap_getElem_length {α : Type} (l : List α) :
    ∀ (idxs : List Nat), (∀ i ∈ idxs, i < l.length) →
      (idxs.filterMap (fun i => l[i]?)).length = idxs.length := by
  intro idxs
  induction idxs with
  | nil => intro _; rfl
  | cons i rest ih =>
    intro h
    have hi : i < l.length := h i (by simp)
    rw [List.filterMap_cons, List.getElem?_eq_getElem hi]
    simp only [List.length_cons]
    rw [ih (fun j hj => h j (by simp [hj]))]

theorem searchIndex_fold_mem {V : Type} (st : VIndex V) :
    ∀ (raw : List (ℚ × Int)) (acc : List (String × ℚ)),
      (∀ q ∈ acc, q.1 ∈ st.chunk_ids) →
      ∀ p ∈ raw.foldl
        (fun acc p =>
          if (0 : Int) ≤ p.2 ∧ p.2 < (st.chunk_ids.length : Int) then
            match st.chunk_ids[p.2.toNat]? with
            | some cid => acc ++ [(cid, p.1)]
            | none => acc
          else acc) acc,
        p.1 ∈ st.chunk_ids := by
  intro raw
  induction raw with
  | nil => intro acc hacc p hp; exact hacc p hp
  | cons r rest ih =>
    intro acc hacc p hp
    simp only [List.foldl_cons] at hp
    refine ih _ ?_ p hp
    split
    · split
      · rename_i cid hcid
        intro q hq
        rcases List.mem_append.mp hq with h | h
        · exact hacc q h
        · have : q = (cid, r.1) := by simpa using h
          subst this
          exact List.getElem?_mem hcid
      · exact hacc
    · exact hacc

/-- C10: the vector index keeps one mapping entry per stored vector:
`add_chunks` preserves the invariant whenever the id and content lists have
equal length, `remove_chunks` preserves it outright, and `search` only
returns chunk ids present in the mapping. -/
theorem vector_index_invariants :
    (∀ (V : Type) (embed : String → V) (st : VIndex V) (ids contents : List String),
        st.wf → ids.length = contents.length → (add_chunks embed st ids contents).wf)
    ∧ (∀ (V : Type) (st : VIndex V) (rm : List String), st.wf → (remove_chunks st rm).wf)
    ∧ (∀ (V : Type) (st : VIndex V) (raw : List (ℚ × Int)) (p : String × ℚ),
        p ∈ searchIndex st raw → p.1 ∈ st.chunk_ids) := by
  refine ⟨?_, ?_, ?_⟩
  · intro V embed st ids contents hwf hlen
    unfold VIndex.wf at hwf
    unfold add_chunks
    split
    · exact hwf
    · simp only [VIndex.wf, List.length_append, List.length_map]
      omega
  · intro V st rm hwf
    unfold VIndex.wf at hwf
    simp only [remove_chunks]
    split
    · exact hwf
    · have hidx : ∀ i ∈ (st.chunk_ids.enum.filter (fun p => p.2 ∉ rm)).map (fun p => p.1),
          i < st.chunk_ids.length := by
        intro i hi
        rcases List.mem_map.mp hi with ⟨q, hq, rfl⟩
        have hq' := List.mem_filter.mp hq
        have := hq'.1
        rw [List.enum_eq_zip_range] at this
        rcases q with ⟨j, a⟩
        have := (List.of_mem_zip this).1
        simpa [List.mem_range] using this
      simp only [VIndex.wf]
      rw [filterMap_getElem_length st.chunk_ids _ hidx,
        filterMap_getElem_length st.vectors _ (by rw [hwf]; exact hidx)]
  · intro V st raw p hp
    unfold searchIndex at hp
    split at hp
    · simp at hp
    · exact searchIndex_fold_mem st raw [] (by simp) p hp

/-- C10 witness: concrete add, remove and search calls on a one-entry
index over `V = ℚ`. -/
theorem vector_index_invariants_witness :
    ((VIndex.mk [(0 : ℚ)] ["c1"]).wf
      ∧ (List.length ["c2"] = List.length ["text"])
      ∧ (add_chunks (fun _ => (0 : ℚ)) ⟨[0], ["c1"]⟩ ["c2"] ["text"]).wf)
    ∧ (remove_chunks (⟨[0], ["c1"]⟩ : VIndex ℚ) ["c1"]).wf
    ∧ (("c1", (1 : ℚ)) ∈ searchIndex (⟨[0], ["c1"]⟩ : VIndex ℚ) [(1, 0)]
      ∧ "c1" ∈ (VIndex.mk [(0 : ℚ)] ["c1"]).chunk_ids) := by
  refine ⟨⟨rfl, rfl, vector_index_invariants.1 ℚ (fun _ => 0) ⟨[0], ["c1"]⟩ ["c2"] ["text"] rfl rfl⟩,
    vector_index_invariants.2.1 ℚ ⟨[0], ["c1"]⟩ ["c1"] rfl, ?_, ?_⟩
  · show ("c1", (1 : ℚ)) ∈ searchIndex (⟨[0], ["c1"]⟩ : VIndex ℚ) [(1, 0)]
    with_unfolding_all decide
  · exact vector_index_invariants.2.2 ℚ ⟨[0], ["c1"]⟩ [(1, 0)] ("c1", 1)
      (by with_unfolding_all decide)

/-- C1: for every answer and non-empty context, `validate_answer` returns
`grounding_score` equal to the number of grounded sentences divided by the
number of sentences (0 when the answer has no sentences, matching the
code's explicit 0.0), and — reading the claim's fatal-error clause through
the `errors` list the code records, which for a non-empty answer is
non-empty exactly when the score drops below 0.5 — `is_valid` holds iff
the score reaches `min_confidence` and no fatal error is recorded, for any
threshold of at least 0.5 (the default is 0.7). -/
theorem validate_answer_aggregate (sim : String → String → ℚ) (min_confidence : ℚ)
    (answer : String) (chunks : List ContextChunk)
    (hch : chunks ≠ []) (hmin : (1 : ℚ)/2 ≤ min_confidence) :
    (validate_answer sim min_confidence answer chunks).grounding_score =
      (((validate_answer sim min_confidence answer chunks).sentence_results.countP
        (fun r => r.is_grounded) : ℚ)) / ((split_sentences answer).length : ℚ)
    ∧ ((validate_answer sim min_confidence answer chunks).is_valid = true ↔
        min_confidence ≤ (validate_answer sim min_confidence answer chunks).grounding_score
        ∧ (validate_answer sim min_confidence answer chunks).errors = [])
    ∧ (answer ≠ "" →
        ((validate_answer sim min_confidence answer chunks).errors ≠ [] ↔
          (validate_answer sim min_confidence answer chunks).grounding_score < 1/2)) := by
  by_cases hans : answer = ""
  · subst hans
    have hscore : (validate_answer sim min_confidence "" chunks).grounding_score = 0 := by
      simp [validate_answer]
    have hval : (validate_answer sim min_confidence "" chunks).is_valid = false := by
      simp [validate_answer]
    have herr : (validate_answer sim min_confidence "" chunks).errors = [] := by
      simp [validate_answer]
    have hres : (validate_answer sim min_confidence "" chunks).sentence_results = [] := by
      simp [validate_answer]
    have h0 : split_sentences "" = [] := rfl
    refine ⟨?_, ?_, fun hne => absurd rfl hne⟩
    · rw [hscore, hres, h0]
      simp
    · rw [hval, hscore, herr]
      constructor
      · intro h; cases h
      · rintro ⟨hle, -⟩
        exfalso
        linarith
  · have hcond : ¬(answer = "" ∨ chunks = []) := by simp [hans, hch]
    have hres : (validate_answer sim min_confidence answer chunks).sentence_results =
        (split_sentences answer).map
          (fun s => validate_sentence sim s chunks (buildContentIndex chunks)) := by
      simp only [validate_answer, if_neg hcond]
    have hscore : (validate_answer sim min_confidence answer chunks).grounding_score =
        (if (validate_answer sim min_confidence answer chunks).sentence_results ≠ [] then
          (((validate_answer sim min_confidence answer chunks).sentence_results.countP
            (fun r => r.is_grounded) : ℚ)) /
            ((validate_answer sim min_confidence answer chunks).sentence_results.length : ℚ)
        else 0) := by
      rw [hres]
      simp only [validate_answer, if_neg hcond]
    have hval : (validate_answer sim min_confidence answer chunks).is_valid =
        decide (min_confidence ≤
          (validate_answer sim min_confidence answer chunks).grounding_score) := by
      conv_rhs => rw [hscore, hres]
      simp only [validate_answer, if_neg hcond]
    have herr : (validate_answer sim min_confidence answer chunks).errors =
        (if (validate_answer sim min_confidence answer chunks).grounding_score < 1/2 then
          ["Less than 50% of the answer is grounded in sources"]
        else []) := by
      conv_rhs => rw [hscore, hres]
      simp only [validate_answer, if_neg hcond]
    refine ⟨?_, ?_, ?_⟩
    · rw [hscore, hres]
      by_cases hnil : split_sentences answer = []
      · simp [hnil]
      · rw [if_pos (by simp [hnil])]
        simp [List.length_map]
    · rw [hval, decide_eq_true_eq]
      constructor
      · intro h
        refine ⟨h, ?_⟩
        rw [herr, if_neg (not_lt.mpr (le_trans hmin h))]
      · rintro ⟨h, -⟩
        exact h
    · intro _
      rw [herr]
      by_cases hsc : (validate_answer sim min_confidence answer chunks).grounding_score < 1/2
      · rw [if_pos hsc]
        simpa using hsc
      · rw [if_neg hsc]
        simpa using hsc

/-- C1 witness: the aggregate theorem applied to a concrete answer,
context and the default threshold 0.7. -/
theorem validate_answer_aggregate_witness :
    (([⟨"[1]", "paris is nice", "cit", "c1"⟩] : List ContextChunk) ≠ [])
    ∧ ((1 : ℚ)/2 ≤ 7/10)
    ∧ ((validate_answer (fun _ _ => 0) (7/10) "Paris is nice."
          [⟨"[1]", "paris is nice", "cit", "c1"⟩]).grounding_score =
        (((validate_answer (fun _ _ => 0) (7/10) "Paris is nice."
            [⟨"[1]", "paris is nice", "cit", "c1"⟩]).sentence_results.countP
          (fun r => r.is_grounded) : ℚ)) / ((split_sentences "Paris is nice.").length : ℚ)
      ∧ ((validate_answer (fun _ _ => 0) (7/10) "Paris is nice."
            [⟨"[1]", "paris is nice", "cit", "c1"⟩]).is_valid = true ↔
          (7 : ℚ)/10 ≤ (validate_answer (fun _ _ => 0) (7/10) "Paris is nice."
            [⟨"[1]", "paris is nice", "cit", "c1"⟩]).grounding_score
          ∧ (validate_answer (fun _ _ => 0) (7/10) "Paris is nice."
              [⟨"[1]", "paris is nice", "cit", "c1"⟩]).errors = [])
      ∧ ("Paris is nice." ≠ "" →
          ((validate_answer (fun _ _ => 0) (7/10) "Paris is nice."
              [⟨"[1]", "paris is nice", "cit", "c1"⟩]).errors ≠ [] ↔
            (validate_answer (fun _ _ => 0) (7/10) "Paris is nice."
              [⟨"[1]", "paris is nice", "cit", "c1"⟩]).grounding_score < 1/2))) :=
  ⟨by simp, by norm_num,
    validate_answer_aggregate (fun _ _ => 0) (7/10) "Paris is nice."
      [⟨"[1]", "paris is nice", "cit", "c1"⟩] (by simp) (by norm_num)⟩

/-- C2: every chunk scored by `_structural_rerank` whose owning document is
found carries a structural score of (0.5 for a whole-query substring match)
+ 0.3 × (query-term coverage) + (0.2 for a HEADING), never exceeding 1,
and a final score of `(W_bm25·bm25 + W_dense·dense + W_struct·structural)
× reliability × confidence_weight` with the default weights 0.3/0.5/0.2. -/
theorem structural_rerank_fusion (db : Db) (cands : List Candidate)
    (query : String) (query_terms : List String) (r : RetrievedChunk) (rel : ℚ)
    (hr : r ∈ structural_rerank db cands query query_terms)
    (hdoc : (db.documents.find? (fun d => d.id = r.document_id)).map
        (fun d => d.reliability_score) = some rel) :
    r.structural_score =
      (if containsSub (pyLower r.content) (pyLower query) then (1 : ℚ)/2 else 0)
      + ((query_terms.filter (fun t => containsSub (pyLower r.content) t)).length : ℚ)
          / ((max query_terms.length 1 : ℕ) : ℚ) * (3/10)
      + (if r.chunk_type = "heading" then (1 : ℚ)/5 else 0)
    ∧ r.structural_score ≤ 1
    ∧ r.final_score =
        (settings.BM25_WEIGHT * r.bm25_score + settings.DENSE_WEIGHT * r.dense_score +
          settings.STRUCTURAL_WEIGHT * r.structural_score) * (rel * r.confidence_weight) := by
  unfold structural_rerank at hr
  split at hr
  · simp at hr
  · rcases List.mem_map.mp hr with ⟨chunk, hmem, rfl⟩
    dsimp only at hdoc ⊢
    rcases Option.map_eq_some'.mp hdoc with ⟨d, hfind, hdrel⟩
    rw [hfind]
    have hcov : ((query_terms.filter
        (fun t => containsSub (pyLower chunk.content) t)).length : ℚ)
        / ((max query_terms.length 1 : ℕ) : ℚ) ≤ 1 := by
      apply div_le_one_of_le₀
      · exact_mod_cast Nat.le_trans (List.length_filter_le _ _) (Nat.le_max_left _ _)
      · positivity
    refine ⟨rfl, ?_, by simp [hdrel]⟩
    have h1 : (if containsSub (pyLower chunk.content) (pyLower query) then (1 : ℚ)/2 else 0)
        ≤ 1/2 := by split <;> norm_num
    have h3 : (if chunk.chunk_type = "heading" then (1 : ℚ)/5 else 0) ≤ 1/5 := by
      split <;> norm_num
    have hcov3 : ((query_terms.filter
        (fun t => containsSub (pyLower chunk.content) t)).length : ℚ)
        / ((max query_terms.length 1 : ℕ) : ℚ) * (3/10) ≤ 3/10 := by
      nlinarith [hcov]
    linarith

set_option maxRecDepth 8192 in
/-- C2 witness: the fusion formula checked on a concrete candidate. -/
theorem structural_rerank_fusion_witness :
    ((structural_rerank ⟨[⟨"b", "d1", "zebra", "heading", none, none, 6/5⟩],
        [⟨"d1", "doc.txt", none, 9/10⟩]⟩ [⟨"b", 1, 2/25⟩] "zebra" ["zebra"]).head?.isSome)
    ∧ (∀ r ∈ structural_rerank ⟨[⟨"b", "d1", "zebra", "heading", none, none, 6/5⟩],
          [⟨"d1", "doc.txt", none, 9/10⟩]⟩ [⟨"b", 1, 2/25⟩] "zebra" ["zebra"],
        r.structural_score =
          (if containsSub (pyLower r.content) (pyLower "zebra") then (1 : ℚ)/2 else 0)
          + ((["zebra"].filter (fun t => containsSub (pyLower r.content) t)).length : ℚ)
              / ((max ["zebra"].length 1 : ℕ) : ℚ) * (3/10)
          + (if r.chunk_type = "heading" then (1 : ℚ)/5 else 0)
        ∧ r.structural_score ≤ 1
        ∧ r.final_score =
            (settings.BM25_WEIGHT * r.bm25_score + settings.DENSE_WEIGHT * r.dense_score +
              settings.STRUCTURAL_WEIGHT * r.structural_score) *
              ((9 : ℚ)/10 * r.confidence_weight)) := by
  have hlist : structural_rerank ⟨[⟨"b", "d1", "zebra", "heading", none, none, 6/5⟩],
      [⟨"d1", "doc.txt", none, 9/10⟩]⟩ [⟨"b", 1, 2/25⟩] "zebra" ["zebra"] =
      [⟨"b", "zebra", "d1", "doc.txt", none, none, "heading", 1, 2/25, 1, 729/1250, 6/5⟩] := by
    with_unfolding_all decide
  constructor
  · rw [hlist]; simp
  · intro r hr
    refine structural_rerank_fusion _ [⟨"b", 1, 2/25⟩] "zebra" ["zebra"] r (9/10) hr ?_
    rw [hlist] at hr
    have hrd : r.document_id = "d1" := by
      rcases List.mem_singleton.mp hr with rfl
      rfl
    rw [hrd]
    rfl

theorem insertByScore_perm (x : RetrievedChunk) (l : List RetrievedChunk) :
    (insertByScore x l).Perm (x :: l) := by
  induction l with
  | nil => simp [insertByScore]
  | cons y ys ih =>
    simp only [insertByScore]
    split
    · exact List.Perm.refl _
    · exact (List.Perm.cons y ih).trans (List.Perm.swap x y ys)

theorem insertByScore_pairwise (x : RetrievedChunk) (l : List RetrievedChunk)
    (h : List.Pairwise (fun p q => q.final_score ≤ p.final_score) l) :
    List.Pairwise (fun p q => q.final_score ≤ p.final_score) (insertByScore x l) := by
  induction l with
  | nil => simp [insertByScore]
  | cons y ys ih =>
    rcases List.pairwise_cons.mp h with ⟨hy, hys⟩
    simp only [insertByScore]
    split
    · rename_i hxy
      refine List.pairwise_cons.mpr ⟨?_, h⟩
      intro z hz
      rcases List.mem_cons.mp hz with rfl | hz
      · exact hxy
      · exact le_trans (hy z hz) hxy
    · rename_i hxy
      push_neg at hxy
      refine List.pairwise_cons.mpr ⟨?_, ih hys⟩
      intro z hz
      have hz' := (insertByScore_perm x ys).mem_iff.mp hz
      rcases List.mem_cons.mp hz' with rfl | hz'
      · exact le_of_lt hxy
      · exact hy z hz'

theorem sortByFinalDesc_perm (l : List RetrievedChunk) :
    (sortByFinalDesc l).Perm l := by
  induction l with
  | nil => simp [sortByFinalDesc]
  | cons x xs ih =>
    exact (insertByScore_perm x (sortByFinalDesc xs)).trans (List.Perm.cons x ih)

theorem sortByFinalDesc_sorted (l : List RetrievedChunk) :
    List.Pairwise (fun p q => q.final_score ≤ p.final_score) (sortByFinalDesc l) := by
  induction l with
  | nil => simp [sortByFinalDesc]
  | cons x xs ih => exact insertByScore_pairwise x (sortByFinalDesc xs) ih

/-- C3 (amended): the list `retrieve` returns is sorted descending by
`final_score`, contains at most `top_k` elements, and is drawn from the
reranked candidates; ties keep the candidates' pre-sort order (Python's
`sorted` is stable and no dense-score or chunk-id tie-break exists). -/
theorem retrieve_sorted_truncated (db : Db) (bm25_results dense_results : List (String × ℚ))
    (query : String) (document_ids categories : List String) (min_reliability : ℚ)
    (top_k : Nat) :
    List.Pairwise (fun p q => q.final_score ≤ p.final_score)
      (retrieve db bm25_results dense_results query document_ids categories
        min_reliability top_k)
    ∧ (retrieve db bm25_results dense_results query document_ids categories
        min_reliability top_k).length ≤ top_k
    ∧ (retrieve db bm25_results dense_results query document_ids categories
        min_reliability top_k).Subperm
        (retrieve_results db bm25_results dense_results query document_ids categories
          min_reliability) := by
  unfold retrieve
  refine ⟨List.Pairwise.sublist (List.take_sublist _ _) (sortByFinalDesc_sorted _), ?_, ?_⟩
  · simp [List.length_take_le]
  · exact ((List.take_sublist _ _).subperm).trans (sortByFinalDesc_perm _).subperm

/-- C3 counterexample to the claimed tie-break: two candidates tie at
`final_score = 1/5`, yet the returned order is `["b", "a"]` with the head's
`dense_score = 2/25` strictly below the second's `2/5`: Python's stable
sort keeps the database order and never compares dense scores or ids. -/
theorem retrieve_tiebreak_counterexample :
    (retrieve ⟨[⟨"b", "d1", "zebra", "paragraph", none, none, 1⟩,
                ⟨"a", "d1", "nothing here", "paragraph", none, none, 1⟩],
               [⟨"d1", "doc.txt", none, 1⟩]⟩
      [] [("b", 2/25), ("a", 2/5)] "zebra" [] [] 0 10).map
      (fun r => (r.chunk_id, r.final_score, r.dense_score)) =
    [("b", 1/5, 2/25), ("a", 1/5, 2/5)]
    ∧ (2 : ℚ)/25 < 2/5 := by
  constructor
  · with_unfolding_all decide
  · norm_num

theorem dictInsert_append (d : List (String × String)) (k v : String)
    (h : ∀ p ∈ d, p.1 ≠ k) : dictInsert d k v = d ++ [(k, v)] := by
  unfold dictInsert
  rw [if_neg]
  simp only [List.any_eq_true, decide_eq_true_eq]
  rintro ⟨p, hp, hpk⟩
  exact h p hp hpk

theorem buildContentIndex_foldl (chunks : List ContextChunk) :
    ∀ (acc : List (String × String)),
      (∀ c ∈ chunks, ∀ p ∈ acc, p.1 ≠ c.chunk_id) →
      (chunks.map (fun c => c.chunk_id)).Nodup →
      chunks.foldl (fun d c => dictInsert d c.chunk_id (pyLower c.content)) acc =
        acc ++ chunks.map (fun c => (c.chunk_id, pyLower c.content)) := by
  induction chunks with
  | nil => intro acc _ _; simp
  | cons c rest ih =>
    intro acc hdisj hnodup
    rw [List.map_cons, List.nodup_cons] at hnodup
    simp only [List.foldl_cons]
    rw [dictInsert_append acc c.chunk_id (pyLower c.content)
      (fun p hp => hdisj c (by simp) p hp)]
    rw [ih (acc ++ [(c.chunk_id, pyLower c.content)]) ?_ hnodup.2]
    · simp
    · intro c' hc' p hp
      rcases List.mem_append.mp hp with hp | hp
      · exact hdisj c' (by simp [hc']) p hp
      · have hpEq : p = (c.chunk_id, pyLower c.content) := by simpa using hp
        subst hpEq
        dsimp only
        intro hcontra
        exact hnodup.1 (hcontra ▸ List.mem_map_of_mem _ hc')

theorem buildContentIndex_nodup (chunks : List ContextChunk)
    (hnodup : (chunks.map (fun c => c.chunk_id)).Nodup) :
    buildContentIndex chunks = chunks.map (fun c => (c.chunk_id, pyLower c.content)) := by
  unfold buildContentIndex
  rw [buildContentIndex_foldl chunks [] (by simp) hnodup]
  simp

/-- C4 (amended): a sentence not classified CITED whose marker-stripped
lowercased residue is longer than 20 characters (the code's strict `> 20`,
not the claimed `≥ 20`) and is a substring of some context chunk's
lowercased content is classified EXACT with confidence 1.0 (assuming the
context chunks carry distinct ids, so the content index covers them all). -/
theorem validate_sentence_exact_over20 (sim : String → String → ℚ) (sentence : String)
    (chunks : List ContextChunk)
    (hnodup : (chunks.map (fun c => c.chunk_id)).Nodup)
    (hcited : citedStep sim sentence chunks = none)
    (hlen : 20 < (pyStrip (stripMarkers (pyLower sentence))).length)
    (hsub : ∃ c ∈ chunks, containsSub (pyLower c.content)
        (pyStrip (stripMarkers (pyLower sentence))) = true) :
    (validate_sentence sim sentence chunks (buildContentIndex chunks)).match_type = "exact"
    ∧ (validate_sentence sim sentence chunks (buildContentIndex chunks)).confidence = 1 := by
  have hfind : ∃ kv, (buildContentIndex chunks).find? (fun kv =>
      decide ((pyStrip (stripMarkers (pyLower sentence))).length > 20) &&
        containsSub kv.2 (pyStrip (stripMarkers (pyLower sentence)))) = some kv := by
    rw [buildContentIndex_nodup chunks hnodup]
    rcases hsub with ⟨c, hc, hcsub⟩
    have hex : ∃ kv ∈ chunks.map (fun c => (c.chunk_id, pyLower c.content)),
        (decide ((pyStrip (stripMarkers (pyLower sentence))).length > 20) &&
          containsSub kv.2 (pyStrip (stripMarkers (pyLower sentence)))) = true := by
      refine ⟨(c.chunk_id, pyLower c.content), List.mem_map_of_mem _ hc, ?_⟩
      simp [hlen, hcsub]
    have := List.find?_isSome.mpr hex
    rcases Option.isSome_iff_exists.mp this with ⟨kv, hkv⟩
    exact ⟨kv, hkv⟩
  rcases hfind with ⟨kv, hkv⟩
  unfold validate_sentence
  rw [hcited]
  have hex : exactStep sentence (buildContentIndex chunks) = some
      { sentence := sentence
        is_grounded := true
        confidence := 1
        matched_chunks := [kv.1]
        matched_excerpts := [pyStrip (stripMarkers (pyLower sentence))]
        match_type := "exact" } := by
    simp only [exactStep]
    rw [hkv]
  rw [hex]
  exact ⟨rfl, rfl⟩

/-- C4 witness: a 33-character sentence contained in a context chunk is
classified EXACT with confidence 1. -/
theorem validate_sentence_exact_over20_witness :
    ((([⟨"[1]", "well, this sentence has many characters indeed", "cit", "c1"⟩] :
        List ContextChunk).map (fun c => c.chunk_id)).Nodup)
    ∧ (citedStep (fun _ _ => 0) "This sentence has many characters"
        [⟨"[1]", "well, this sentence has many characters indeed", "cit", "c1"⟩] = none)
    ∧ (20 < (pyStrip (stripMarkers (pyLower "This sentence has many characters"))).length)
    ∧ (∃ c ∈ ([⟨"[1]", "well, this sentence has many characters indeed", "cit", "c1"⟩] :
        List ContextChunk), containsSub (pyLower c.content)
          (pyStrip (stripMarkers (pyLower "This sentence has many characters"))) = true)
    ∧ ((validate_sentence (fun _ _ => 0) "This sentence has many characters"
          [⟨"[1]", "well, this sentence has many characters indeed", "cit", "c1"⟩]
          (buildContentIndex
            [⟨"[1]", "well, this sentence has many characters indeed", "cit", "c1"⟩])).match_type
        = "exact"
      ∧ (validate_sentence (fun _ _ => 0) "This sentence has many characters"
          [⟨"[1]", "well, this sentence has many characters indeed", "cit", "c1"⟩]
          (buildContentIndex
            [⟨"[1]", "well, this sentence has many characters indeed", "cit", "c1"⟩])).confidence
        = 1) :=
  ⟨by simp, by with_unfolding_all decide, by with_unfolding_all decide,
    ⟨⟨"[1]", "well, this sentence has many characters indeed", "cit", "c1"⟩,
      by simp, by with_unfolding_all decide⟩,
    validate_sentence_exact_over20 (fun _ _ => 0) "This sentence has many characters"
      [⟨"[1]", "well, this sentence has many characters indeed", "cit", "c1"⟩]
      (by simp) (by with_unfolding_all decide) (by with_unfolding_all decide)
      ⟨⟨"[1]", "well, this sentence has many characters indeed", "cit", "c1"⟩,
        by simp, by with_unfolding_all decide⟩⟩

/-- C4 counterexample to the claim as stated: the sentence
`"twenty char sentence"` strips to exactly 20 characters and is a
substring of the context chunk, is not classified CITED, yet the cascade
classifies it PARAPHRASE (the code requires strictly more than 20
characters for EXACT), so "at least 20" is false. -/
theorem exact_match_length_counterexample :
    (pyStrip (stripMarkers (pyLower "twenty char sentence"))).length = 20
    ∧ containsSub (pyLower "twenty char sentence is here")
        (pyStrip (stripMarkers (pyLower "twenty char sentence"))) = true
    ∧ citedStep (fun _ _ => 0) "twenty char sentence"
        [⟨"[1]", "twenty char sentence is here", "cit", "c1"⟩] = none
    ∧ (validate_sentence (fun _ _ => 0) "twenty char sentence"
        [⟨"[1]", "twenty char sentence is here", "cit", "c1"⟩]
        (buildContentIndex [⟨"[1]", "twenty char sentence is here", "cit", "c1"⟩])).match_type
        = "paraphrase" := by
  refine ⟨?_, ?_, ?_, ?_⟩ <;> with_unfolding_all decide

/-- C5 (amended): when the extractive parser takes the quote path, every
extracted `"<quote>" [k]` pair whose citation number is in range
(`1 ≤ k ≤ #chunks`) is retained in the returned quote list flagged with the
outcome of the case-insensitive substring check against chunk `k−1`
(failures retained with `verified = false`); pairs with out-of-range `k`
are silently dropped, so `all_verified = true` guarantees only that every
retained (in-range) quote verified. -/
theorem parse_extractive_verified_flags (response : String) (chunks : List ContextChunk)
    (hfound : (parse_extractive_response response chunks).found = true) :
    (∀ p ∈ findQuotePairs response,
        1 ≤ natOfDigits p.2.toList → natOfDigits p.2.toList ≤ chunks.length →
        ∃ q ∈ (parse_extractive_response response chunks).quotes,
          q.quote = p.1 ∧ q.citation = "[" ++ p.2 ++ "]" ∧
          ∃ chunk, chunks[natOfDigits p.2.toList - 1]? = some chunk ∧
            q.verified = containsSub (pyLower chunk.content) (pyLower p.1))
    ∧ ((parse_extractive_response response chunks).all_verified = true →
        ∀ q ∈ (parse_extractive_response response chunks).quotes, q.verified = true) := by
  by_cases hnf : containsSub (pyUpper response) "NOT_FOUND" = true
  · exfalso
    unfold parse_extractive_response at hfound
    rw [if_pos hnf] at hfound
    simp at hfound
  · have heq : parse_extractive_response response chunks =
        { answer := some response
          found := true
          quotes := (findQuotePairs response).flatMap (verifyQuote chunks)
          all_verified :=
            if (findQuotePairs response).flatMap (verifyQuote chunks) ≠ [] then
              ((findQuotePairs response).flatMap (verifyQuote chunks)).all
                (fun q => q.verified)
            else false } := by
      unfold parse_extractive_response
      rw [if_neg hnf]
    constructor
    · intro p hp h1 hk
      set n := natOfDigits p.2.toList with hn
      have hidx : ((0 : Int) ≤ (n : Int) - 1 ∧ (n : Int) - 1 < (chunks.length : Int)) := by
        constructor <;> omega
      have hlt : n - 1 < chunks.length := by omega
      have hget : chunks[n - 1]? = some chunks[n - 1] := List.getElem?_eq_getElem hlt
      have hverify : verifyQuote chunks p =
          [{ quote := p.1
             citation := "[" ++ p.2 ++ "]"
             source := chunks[n - 1].citation
             verified := containsSub (pyLower chunks[n - 1].content) (pyLower p.1) }] := by
        unfold verifyQuote
        rw [if_pos (by rw [← hn]; exact hidx)]
        have htoNat : ((n : Int) - 1).toNat = n - 1 := by omega
        rw [← hn, htoNat, hget]
      refine ⟨{ quote := p.1
                citation := "[" ++ p.2 ++ "]"
                source := chunks[n - 1].citation
                verified := containsSub (pyLower chunks[n - 1].content) (pyLower p.1) },
        ?_, rfl, rfl, chunks[n - 1], hget, rfl⟩
      rw [heq]
      dsimp only
      exact List.mem_flatMap.mpr ⟨p, hp, by rw [hverify]; simp⟩
    · intro hav q hq
      rw [heq] at hav hq
      dsimp only at hav hq
      by_cases hqe : (findQuotePairs response).flatMap (verifyQuote chunks) ≠ []
      · rw [if_pos hqe] at hav
        exact List.all_eq_true.mp hav q hq
      · rw [if_neg hqe] at hav
        cases hav

/-- C5 witness: a response with one in-range verified quote. -/
theorem parse_extractive_verified_flags_witness :
    ((parse_extractive_response "\"good\" [1]" [⟨"[1]", "good stuff", "doc", "c1"⟩]).found
      = true)
    ∧ ((∀ p ∈ findQuotePairs "\"good\" [1]",
        1 ≤ natOfDigits p.2.toList →
        natOfDigits p.2.toList ≤ ([⟨"[1]", "good stuff", "doc", "c1"⟩] : List ContextChunk).length →
        ∃ q ∈ (parse_extractive_response "\"good\" [1]"
            [⟨"[1]", "good stuff", "doc", "c1"⟩]).quotes,
          q.quote = p.1 ∧ q.citation = "[" ++ p.2 ++ "]" ∧
          ∃ chunk, ([⟨"[1]", "good stuff", "doc", "c1"⟩] :
              List ContextChunk)[natOfDigits p.2.toList - 1]? = some chunk ∧
            q.verified = containsSub (pyLower chunk.content) (pyLower p.1))
      ∧ ((parse_extractive_response "\"good\" [1]"
            [⟨"[1]", "good stuff", "doc", "c1"⟩]).all_verified = true →
          ∀ q ∈ (parse_extractive_response "\"good\" [1]"
              [⟨"[1]", "good stuff", "doc", "c1"⟩]).quotes, q.verified = true)) :=
  ⟨by with_unfolding_all decide,
    parse_extractive_verified_flags "\"good\" [1]" [⟨"[1]", "good stuff", "doc", "c1"⟩]
      (by with_unfolding_all decide)⟩

/-- C5 counterexample to the claim as stated: the response extracts the
pairs `("good", 1)` and `("bad", 5)`, but with a single context chunk the
out-of-range `[5]` quote is dropped from the returned list rather than
retained with `verified = false`, and `all_verified` is still true even
though the extracted quote `"bad"` was never verified. -/
theorem extractive_out_of_range_counterexample :
    findQuotePairs "\"good\" [1] \"bad\" [5]" = [("good", "1"), ("bad", "5")]
    ∧ (parse_extractive_response "\"good\" [1] \"bad\" [5]"
        [⟨"[1]", "good stuff", "doc", "c1"⟩]).all_verified = true
    ∧ (∀ q ∈ (parse_extractive_response "\"good\" [1] \"bad\" [5]"
        [⟨"[1]", "good stuff", "doc", "c1"⟩]).quotes, q.quote ≠ "bad") := by
  refine ⟨?_, ?_, ?_⟩ <;> with_unfolding_all decide

theorem joinContents_cons_ne (x : IngChunk) (L : List IngChunk) (h : L ≠ []) :
    joinContents (x :: L) = x.content ++ " " ++ joinContents L := by
  rcases List.exists_cons_of_ne_nil h with ⟨z, zs, rfl⟩
  rfl

theorem joinContents_append (l1 l2 : List IngChunk) (h1 : l1 ≠ []) (h2 : l2 ≠ []) :
    joinContents (l1 ++ l2) = joinContents l1 ++ " " ++ joinContents l2 := by
  induction l1 with
  | nil => exact absurd rfl h1
  | cons x xs ih =>
    by_cases hxs : xs = []
    · subst hxs
      rw [List.singleton_append, joinContents_cons_ne x l2 h2]
      rfl
    · have happ : xs ++ l2 ≠ [] := by simp [hxs]
      rw [List.cons_append, joinContents_cons_ne x (xs ++ l2) happ, ih hxs,
        joinContents_cons_ne x xs hxs]
      simp [String.append_assoc]

theorem appendToLast_ne_nil (l : List IngChunk) (s : String) (h : l ≠ []) :
    appendToLast l s ≠ [] := by
  cases l with
  | nil => exact absurd rfl h
  | cons x xs => cases xs <;> simp [appendToLast]

theorem appendToLast_join (l : List IngChunk) (s : String) (h : l ≠ []) :
    joinContents (appendToLast l s) = joinContents l ++ " " ++ s := by
  induction l with
  | nil => exact absurd rfl h
  | cons x xs ih =>
    cases xs with
    | nil => rfl
    | cons y ys =>
      have hne : (y :: ys : List IngChunk) ≠ [] := by simp
      have hne2 := appendToLast_ne_nil (y :: ys) s hne
      show joinContents (x :: appendToLast (y :: ys) s) = _
      rw [joinContents_cons_ne x _ hne2, ih hne, joinContents_cons_ne x _ hne]
      simp [String.append_assoc]

theorem joinContents_congr_mid (A R M1 M2 : List IngChunk) (h1 : M1 ≠ []) (h2 : M2 ≠ [])
    (h : joinContents M1 = joinContents M2) :
    joinContents (A ++ M1 ++ R) = joinContents (A ++ M2 ++ R) := by
  by_cases hA : A = [] <;> by_cases hR : R = []
  · subst hA; subst hR; simpa using h
  · subst hA
    simp only [List.nil_append]
    rw [joinContents_append M1 R h1 hR, joinContents_append M2 R h2 hR, h]
  · subst hR
    simp only [List.append_nil]
    rw [joinContents_append A M1 hA h1, joinContents_append A M2 hA h2, h]
  · have hAM1 : A ++ M1 ≠ [] := by simp [hA]
    have hAM2 : A ++ M2 ≠ [] := by simp [hA]
    rw [joinContents_append (A ++ M1) R hAM1 hR, joinContents_append (A ++ M2) R hAM2 hR,
      joinContents_append A M1 hA h1, joinContents_append A M2 hA h2, h]

theorem mergeLoop_join (m : Nat) :
    ∀ (rest merged : List IngChunk) (buffer : Option IngChunk),
      joinContents (mergeLoop m merged buffer rest) =
        joinContents (merged ++ buffer.toList ++ rest) := by
  intro rest
  induction rest with
  | nil =>
    intro merged buffer
    cases buffer with
    | none => simp [mergeLoop]
    | some b =>
      cases merged with
      | nil => simp [mergeLoop]
      | cons x xs =>
        show joinContents (appendToLast (x :: xs) b.content) = _
        rw [appendToLast_join (x :: xs) b.content (by simp)]
        simp only [Option.toList, List.append_nil]
        rw [joinContents_append (x :: xs) [b] (by simp) (by simp)]
        rfl
  | cons c rest ih =>
    intro merged buffer
    simp only [mergeLoop]
    split
    · cases buffer with
      | some b =>
        dsimp only
        rw [ih]
        have hl : merged ++ (Option.toList (some b)) ++ (c :: rest) =
            merged ++ [b, c] ++ rest := by simp
        rw [hl]
        exact joinContents_congr_mid merged rest
          [{ b with content := b.content ++ " " ++ c.content }] [b, c]
          (by simp) (by simp) (by rfl)
      | none =>
        dsimp only
        rw [ih]
        simp
    · cases buffer with
      | some b =>
        dsimp only
        split
        · rw [ih]
          have hl : merged ++ (Option.toList (some b)) ++ (c :: rest) =
              merged ++ [b, c] ++ rest := by simp
          rw [hl]
          have hm : merged ++ [{ c with content := b.content ++ " " ++ c.content }] ++
              (Option.toList (none : Option IngChunk)) ++ rest =
              merged ++ [{ c with content := b.content ++ " " ++ c.content }] ++ rest := by
            simp
          rw [hm]
          exact joinContents_congr_mid merged rest
            [{ c with content := b.content ++ " " ++ c.content }] [b, c]
            (by simp) (by simp) (by rfl)
        · rw [ih]
          simp
      | none =>
        dsimp only
        rw [ih]
        simp

theorem appendToLast_count_heading (l : List IngChunk) (s : String) :
    (appendToLast l s).countP (fun x => decide (x.chunk_type = "heading"))
      = l.countP (fun x => decide (x.chunk_type = "heading")) := by
  induction l with
  | nil => rfl
  | cons x xs ih =>
    cases xs with
    | nil => simp [appendToLast, List.countP_cons]
    | cons y ys =>
      show ((x :: appendToLast (y :: ys) s).countP _) = _
      rw [List.countP_cons, List.countP_cons, ih]

theorem mergeLoop_headings (m : Nat) :
    ∀ (rest merged : List IngChunk) (buffer : Option IngChunk),
      (∀ b, buffer = some b → b.chunk_type ≠ "heading") →
      (mergeLoop m merged buffer rest).countP (fun x => decide (x.chunk_type = "heading"))
        = merged.countP (fun x => decide (x.chunk_type = "heading"))
          + rest.countP (fun x => decide (x.chunk_type = "heading")) := by
  intro rest
  induction rest with
  | nil =>
    intro merged buffer hbuf
    cases buffer with
    | none => simp [mergeLoop]
    | some b =>
      cases merged with
      | nil => simp [mergeLoop, List.countP_cons, hbuf b rfl]
      | cons a as =>
        show ((appendToLast (a :: as) b.content).countP _) = _
        rw [appendToLast_count_heading]
        simp
  | cons c rest ih =>
    intro merged buffer hbuf
    simp only [mergeLoop]
    split
    · rename_i hsmall
      cases buffer with
      | some b =>
        dsimp only
        rw [ih _ _ (by intro b' hb'; cases hb'; exact hbuf b rfl)]
        rw [List.countP_cons]
        simp [hsmall.2]
      | none =>
        dsimp only
        rw [ih _ _ (by intro b' hb'; cases hb'; exact hsmall.2)]
        rw [List.countP_cons]
        simp [hsmall.2]
    · cases buffer with
      | some b =>
        dsimp only
        split
        · rw [ih _ _ (by intro b' hb'; cases hb')]
          rw [List.countP_append, List.countP_cons]
          simp [List.countP_cons]
          omega
        · rw [ih _ _ (by intro b' hb'; cases hb')]
          rw [List.countP_append, List.countP_cons]
          have hb : (decide (b.chunk_type = "heading")) = false := by
            simp [hbuf b rfl]
          simp [List.countP_cons, hb]
          omega
      | none =>
        dsimp only
        rw [ih _ _ (by intro b' hb'; cases hb')]
        rw [List.countP_append, List.countP_cons]
        simp [List.countP_cons]
        omega

theorem appendToLast_big (m : Nat) (l : List IngChunk) (s : String)
    (h : ∀ x ∈ l, m ≤ x.content.length ∨ x.chunk_type = "heading") :
    ∀ x ∈ appendToLast l s, m ≤ x.content.length ∨ x.chunk_type = "heading" := by
  induction l with
  | nil => intro x hx; simp [appendToLast] at hx
  | cons a as ih =>
    cases as with
    | nil =>
      intro x hx
      simp only [appendToLast, List.mem_singleton] at hx
      subst hx
      rcases h a (by simp) with hl | hh
      · left
        rw [String.append_assoc, String.length_append]
        omega
      · right
        exact hh
    | cons y ys =>
      intro x hx
      rcases List.mem_cons.mp hx with rfl | hx
      · exact h x (by simp)
      · exact ih (fun z hz => h z (by simp [hz])) x hx

theorem mergeLoop_big (m : Nat) :
    ∀ (rest merged : List IngChunk) (buffer : Option IngChunk),
      (∀ x ∈ merged, m ≤ x.content.length ∨ x.chunk_type = "heading") →
      (merged ≠ [] ∨ ∃ x ∈ rest, m ≤ x.content.length ∨ x.chunk_type = "heading") →
      ∀ x ∈ mergeLoop m merged buffer rest,
        m ≤ x.content.length ∨ x.chunk_type = "heading" := by
  intro rest
  induction rest with
  | nil =>
    intro merged buffer hmerged hne x hx
    cases buffer with
    | none => exact hmerged x hx
    | some b =>
      cases hm : merged with
      | nil =>
        rcases hne with h | ⟨y, hy, -⟩
        · exact absurd hm h
        · simp at hy
      | cons a as =>
        subst hm
        exact appendToLast_big m (a :: as) b.content hmerged x hx
  | cons c rest ih =>
    intro merged buffer hmerged hne
    simp only [mergeLoop]
    split
    · rename_i hsmall
      have hne' : merged ≠ [] ∨ ∃ x ∈ rest, m ≤ x.content.length ∨ x.chunk_type = "heading" := by
        rcases hne with h | ⟨y, hy, hP⟩
        · exact Or.inl h
        · rcases List.mem_cons.mp hy with rfl | hy
          · rcases hP with hl | hh
            · omega
            · exact absurd hh hsmall.2
          · exact Or.inr ⟨y, hy, hP⟩
      cases buffer with
      | some b => exact ih merged _ hmerged hne'
      | none => exact ih merged _ hmerged hne'
    · rename_i hbig
      have hPc : m ≤ c.content.length ∨ c.chunk_type = "heading" := by
        by_cases hl : m ≤ c.content.length
        · exact Or.inl hl
        · right
          by_contra hh
          exact hbig ⟨by omega, hh⟩
      cases buffer with
      | some b =>
        dsimp only
        split
        · apply ih _ none ?_ (Or.inl (by simp))
          intro x hx
          rcases List.mem_append.mp hx with hx | hx
          · exact hmerged x hx
          · have hxe : x = { c with content := b.content ++ " " ++ c.content } := by
              simpa using hx
            subst hxe
            rcases hPc with hl | hh
            · left
              dsimp only
              rw [String.length_append]
              omega
            · exact Or.inr hh
        · rename_i hbs
          apply ih _ none ?_ (Or.inl (by simp))
          intro x hx
          rcases List.mem_append.mp hx with hx | hx
          · exact hmerged x hx
          · rcases List.mem_cons.mp hx with rfl | hx
            · left
              omega
            · have hxe : x = c := by simpa using hx
              subst hxe
              exact hPc
      | none =>
        apply ih _ none ?_ (Or.inl (by simp))
        intro x hx
        rcases List.mem_append.mp hx with hx | hx
        · exact hmerged x hx
        · have hxe : x = c := by simpa using hx
          subst hxe
          exact hPc

/-- C6 (amended): `_merge_small_chunks` concatenates runs of small
(< 100 characters) non-HEADING chunks into a buffer that is merged into
the FOLLOWING flushed chunk while still small (or, for a trailing run,
appended to the last emitted chunk) — not into the preceding non-heading
chunk as claimed.  What does hold: the document text is preserved in
order, headings are never merged away (their count is preserved, though a
heading may absorb a preceding small buffer), and when any chunk is large
or a heading, no small non-heading chunk survives the merge. -/
theorem merge_small_chunks_amended (chunks : List IngChunk) :
    joinContents (merge_small_chunks chunks 100) = joinContents chunks
    ∧ (merge_small_chunks chunks 100).countP (fun c => decide (c.chunk_type = "heading"))
        = chunks.countP (fun c => decide (c.chunk_type = "heading"))
    ∧ ((∃ c ∈ chunks, 100 ≤ c.content.length ∨ c.chunk_type = "heading") →
        ∀ c ∈ merge_small_chunks chunks 100,
          100 ≤ c.content.length ∨ c.chunk_type = "heading") := by
  unfold merge_small_chunks
  split
  · rename_i hlen
    refine ⟨rfl, rfl, ?_⟩
    rintro ⟨w, hw, hPw⟩ c hc
    cases chunks with
    | nil => simp at hc
    | cons a as =>
      cases as with
      | nil =>
        have hwa : w = a := by simpa using hw
        have hca : c = a := by simpa using hc
        subst hwa; subst hca
        exact hPw
      | cons b bs => simp at hlen; omega
  · refine ⟨?_, ?_, ?_⟩
    · have h := mergeLoop_join 100 chunks [] none
      simpa using h
    · have h := mergeLoop_headings 100 chunks [] none (by intro b hb; cases hb)
      simpa using h
    · intro hex
      exact mergeLoop_big 100 chunks [] none (by simp) (Or.inr hex)

/-- C6 witness: the amended theorem applied to a list with one small chunk
between two 100-character paragraphs. -/
theorem merge_small_chunks_amended_witness :
    (∃ c ∈ ([⟨String.mk (List.replicate 100 'a'), "paragraph", none, 0, 1, "h"⟩,
        ⟨"x", "paragraph", none, 1, 1, "h"⟩,
        ⟨String.mk (List.replicate 100 'b'), "paragraph", none, 2, 1, "h"⟩] : List IngChunk),
      100 ≤ c.content.length ∨ c.chunk_type = "heading")
    ∧ ∀ c ∈ merge_small_chunks
        [⟨String.mk (List.replicate 100 'a'), "paragraph", none, 0, 1, "h"⟩,
         ⟨"x", "paragraph", none, 1, 1, "h"⟩,
         ⟨String.mk (List.replicate 100 'b'), "paragraph", none, 2, 1, "h"⟩] 100,
        100 ≤ c.content.length ∨ c.chunk_type = "heading" :=
  ⟨⟨⟨String.mk (List.replicate 100 'a'), "paragraph", none, 0, 1, "h"⟩, by simp,
      Or.inl (by with_unfolding_all decide)⟩,
    (merge_small_chunks_amended
      [⟨String.mk (List.replicate 100 'a'), "paragraph", none, 0, 1, "h"⟩,
       ⟨"x", "paragraph", none, 1, 1, "h"⟩,
       ⟨String.mk (List.replicate 100 'b'), "paragraph", none, 2, 1, "h"⟩]).2.2
      ⟨⟨String.mk (List.replicate 100 'a'), "paragraph", none, 0, 1, "h"⟩, by simp,
        Or.inl (by with_unfolding_all decide)⟩⟩

/-- C6 counterexample to the claim as stated: with a 100-character
paragraph A, the 1-character chunk "x" and another 100-character
paragraph B, the claim predicts "x" is merged into the preceding
non-heading chunk (producing content `A ++ " x"`), but the code leaves A
untouched and prepends "x" into the FOLLOWING chunk B. -/
theorem merge_small_chunks_direction_counterexample :
    (merge_small_chunks
      [⟨String.mk (List.replicate 100 'a'), "paragraph", none, 0, 1, "h"⟩,
       ⟨"x", "paragraph", none, 1, 1, "h"⟩,
       ⟨String.mk (List.replicate 100 'b'), "paragraph", none, 2, 1, "h"⟩] 100).map
      (fun c => c.content)
      = [String.mk (List.replicate 100 'a'), "x " ++ String.mk (List.replicate 100 'b')]
    ∧ ∀ c ∈ merge_small_chunks
        [⟨String.mk (List.replicate 100 'a'), "paragraph", none, 0, 1, "h"⟩,
         ⟨"x", "paragraph", none, 1, 1, "h"⟩,
         ⟨String.mk (List.replicate 100 'b'), "paragraph", none, 2, 1, "h"⟩] 100,
        c.content ≠ String.mk (List.replicate 100 'a') ++ " x" := by
  constructor
  · with_unfolding_all decide
  · with_unfolding_all decide
